import Mathlib

/-!
Shallow embedding of the IMDB merge pipeline of
`src/download_imdb_data_auto.py` (functions `load_ratings`, `load_crew`,
`load_names`, `load_principals`, `load_languages_and_countries`,
`process_basics`).

Modelling conventions:
* An input source is the list of its data lines (the one header line the
  Python code discards with `f.readline()` is not part of the list); each
  line is a `String` without its trailing newline (Python's `line.strip()`
  removes it anyway, and `strTrim` below models `strip`).
* A Python `dict` is an association list with unique keys in insertion
  order: assignment updates in place or appends (`dictInsert`), `in` is
  `dictContains`, `del` is `dictErase`, `d.get`/`d[k]` is `dictGet`.
* Python `float` values are modelled exactly: every rating literal in the
  sources is a plain decimal, parsed here into an exact scaled integer
  (`PyFloat`); `"%.1f"` formatting rounds that exact value half away from
  zero (real `float` rounds the nearest binary double, which agrees on
  every value whose tenths-rounding is not an exact tie).
-/

/-- Exact-decimal model of a Python float: the value `mant / 10 ^ exp`. -/
structure PyFloat where
  mant : Int
  exp : Nat
deriving DecidableEq

/-- Python `str.strip` whitespace test (ASCII subset actually occurring in
tab-separated lines). -/
def isPySpace (c : Char) : Bool :=
  c = ' ' || c = '\t' || c = '\n' || c = '\r' || c = '\x0b' || c = '\x0c'

/-- Python `line.strip()`. -/
def strTrim (s : String) : String :=
  String.mk (((s.data.dropWhile isPySpace).reverse.dropWhile isPySpace).reverse)

/-- Auxiliary for `splitOnChar`. -/
def splitOnCharAux (sep : Char) : List Char → List Char → List String
  | [], acc => [String.mk acc.reverse]
  | c :: cs, acc =>
      if c = sep then String.mk acc.reverse :: splitOnCharAux sep cs []
      else splitOnCharAux sep cs (c :: acc)

/-- Python `s.split(sep)` for a one-character separator: every occurrence
splits, empty pieces are kept, `"".split(sep) = [""]`. -/
def splitOnChar (sep : Char) (s : String) : List String :=
  splitOnCharAux sep s.data []

/-- `line.strip().split('\t')`, the field parse shared by every loader. -/
def fieldsOf (line : String) : List String :=
  splitOnChar '\t' (strTrim line)

/-- Python `sep.join(l)`. -/
def joinSep (sep : String) : List String → String
  | [] => ""
  | [x] => x
  | x :: y :: xs => x ++ sep ++ joinSep sep (y :: xs)

/-- Python `s.replace(a, b)` for one-character arguments. -/
def replaceChar (a b : Char) (s : String) : String :=
  String.mk (s.data.map (fun c => if c = a then b else c))

/-- Value of a digit string, most significant first. -/
def digitsVal (cs : List Char) : Nat :=
  cs.foldl (fun a c => a * 10 + (c.toNat - 48)) 0

/-- Python `float(s)` on the decimal-literal forms occurring in the ratings
source: optional sign, digits with an optional fraction part (`8`, `8.5`,
`.5`, `8.`); other forms (exponents, `inf`, `nan`, surrounding whitespace)
are rejected, which only narrows the accepted set and is not exercised by
the sources. Returns the exact value. -/
def parseFloat (s : String) : Option PyFloat :=
  let p : Int × List Char :=
    match s.data with
    | '-' :: r => (-1, r)
    | '+' :: r => (1, r)
    | r => (1, r)
  let sgn := p.1
  let rest := p.2
  if rest.contains '.' then
    let ip := rest.takeWhile (fun c => c ≠ '.')
    let fp := (rest.dropWhile (fun c => c ≠ '.')).drop 1
    if fp.contains '.' then none
    else if ip.all Char.isDigit && fp.all Char.isDigit && (!ip.isEmpty || !fp.isEmpty) then
      some ⟨sgn * Int.ofNat (digitsVal ip * 10 ^ fp.length + digitsVal fp), fp.length⟩
    else none
  else
    if !rest.isEmpty && rest.all Char.isDigit then some ⟨sgn * Int.ofNat (digitsVal rest), 0⟩
    else none

/-- Python `int(s)`: optional sign and digits (whitespace/underscore forms
are rejected; they do not occur in the sources). -/
def parseInt (s : String) : Option Int :=
  let p : Int × List Char :=
    match s.data with
    | '-' :: r => (-1, r)
    | '+' :: r => (1, r)
    | r => (1, r)
  if !p.2.isEmpty && p.2.all Char.isDigit then some (p.1 * Int.ofNat (digitsVal p.2))
  else none

/-- Python `f"{x:.1f}"` on the exact decimal value: round to tenths (half
away from zero on the exact value) and print with one fraction digit. -/
def format1f (x : PyFloat) : String :=
  let mAbs := x.mant.natAbs
  let p := 10 ^ x.exp
  let n := (mAbs * 10 + p / 2) / p
  let body := Nat.repr (n / 10) ++ "." ++ Nat.repr (n % 10)
  if x.mant < 0 then "-" ++ body else body

/-- Lookup in a Python dict (association list, unique keys). -/
def dictGet {α : Type} : List (String × α) → String → Option α
  | [], _ => none
  | (k, v) :: rest, k2 => if k = k2 then some v else dictGet rest k2

/-- Python `k in d`. -/
def dictContains {α : Type} (d : List (String × α)) (k : String) : Bool :=
  (dictGet d k).isSome

/-- Python `d[k] = v`: update in place if present, else append (insertion
order preserved, as in a Python dict). -/
def dictInsert {α : Type} : List (String × α) → String → α → List (String × α)
  | [], k, v => [(k, v)]
  | (k1, v1) :: rest, k, v =>
      if k1 = k then (k, v) :: rest else (k1, v1) :: dictInsert rest k v

/-- Python `del d[k]` (no-op when absent; the source only deletes present keys). -/
def dictErase {α : Type} : List (String × α) → String → List (String × α)
  | [], _ => []
  | (k1, v1) :: rest, k => if k1 = k then rest else (k1, v1) :: dictErase rest k

/-- One line of `load_ratings`: lines with at least 3 fields and numeric
rating/votes overwrite the entry for their first field; every other line
leaves the dict unchanged (the `ValueError` continue). -/
def ratingsStep (ratings : List (String × PyFloat × Int)) (line : String) :
    List (String × PyFloat × Int) :=
  let parts := fieldsOf line
  if parts.length ≥ 3 then
    match parseFloat (parts.getD 1 ""), parseInt (parts.getD 2 "") with
    | some avg, some votes => dictInsert ratings (parts.getD 0 "") (avg, votes)
    | _, _ => ratings
  else ratings

/-- `load_ratings` over the delivered data lines (a truncated stream simply
delivers fewer lines; the `EOFError` handler keeps the dict built so far). -/
def load_ratings (lines : List String) : List (String × PyFloat × Int) :=
  lines.foldl ratingsStep []

/-- One line of `load_crew`: lines with at least 3 fields store the raw
comma-separated id strings for their first field, with the sentinel `\N`
normalized to the empty string. -/
def crewStep (crew : List (String × String × String)) (line : String) :
    List (String × String × String) :=
  let parts := fieldsOf line
  if parts.length ≥ 3 then
    let directors := if parts.getD 1 "" ≠ "\\N" then parts.getD 1 "" else ""
    let writers := if parts.getD 2 "" ≠ "\\N" then parts.getD 2 "" else ""
    dictInsert crew (parts.getD 0 "") (directors, writers)
  else crew

/-- `load_crew` over the delivered data lines. -/
def load_crew (lines : List String) : List (String × String × String) :=
  lines.foldl crewStep []

/-- `load_names`: `nconst -> primaryName`, the second field stored verbatim. -/
def load_names (lines : List String) : List (String × String) :=
  lines.foldl
    (fun names line =>
      let parts := fieldsOf line
      if parts.length ≥ 2 then dictInsert names (parts.getD 0 "") (parts.getD 1 "")
      else names)
    []

/-- One line of `load_principals`: actor/actress rows resolve the person id
through `names` (`'Unknown'` on a miss) and append while the title's list is
shorter than 3. -/
def principalsStep (names : List (String × String))
    (principals : List (String × List String)) (line : String) :
    List (String × List String) :=
  let parts := fieldsOf line
  if parts.length ≥ 4 then
    if parts.getD 3 "" = "actor" ∨ parts.getD 3 "" = "actress" then
      let name := (dictGet names (parts.getD 2 "")).getD "Unknown"
      let cur := (dictGet principals (parts.getD 0 "")).getD []
      if cur.length < 3 then dictInsert principals (parts.getD 0 "") (cur ++ [name])
      else principals
    else principals
  else principals

/-- The dict of name lists `load_principals` builds before its final join. -/
def principalsLists (lines : List String) (names : List (String × String)) :
    List (String × List String) :=
  lines.foldl (principalsStep names) []

/-- `load_principals`: the name-list dict with each list joined by `", "`
(the final dict comprehension of the source). -/
def load_principals (lines : List String) (names : List (String × String)) :
    List (String × String) :=
  (principalsLists lines names).map (fun p => (p.1, joinSep ", " p.2))

/-- The two dicts one code family (language with canonical `en`, country
with canonical `US`) maintains in `load_languages_and_countries`: `main` is
`languages`/`countries`, `orig` is `original_languages`/`original_countries`. -/
structure FamState where
  main : List (String × String)
  orig : List (String × String)

/-- The per-row update `load_languages_and_countries` performs for one code
family; the source spells this block out twice, once per family, with
`canonical` equal to `'en'` and `'US'` respectively. -/
def updateFamily (canonical : String) (st : FamState) (tconst value : String)
    (is_original : Bool) : FamState :=
  if value ≠ "" then
    if value = canonical then
      { main := dictInsert st.main tconst canonical,
        orig := dictErase st.orig tconst }
    else if is_original && !dictContains st.main tconst then
      { st with orig := dictInsert st.orig tconst value }
    else if !dictContains st.main tconst && !dictContains st.orig tconst then
      { st with main := dictInsert st.main tconst value }
    else st
  else st

/-- The four dicts of `load_languages_and_countries` during its pass. -/
structure LocaleState where
  lang : FamState
  ctry : FamState

/-- One line of `load_languages_and_countries`: rows with at least 8 fields
update both families (region at index 3, language at index 4, the original
flag at index 7, each `\N` normalized to empty). -/
def localeStep (st : LocaleState) (line : String) : LocaleState :=
  let parts := fieldsOf line
  if parts.length ≥ 8 then
    let tconst := parts.getD 0 ""
    let region := if parts.getD 3 "" ≠ "\\N" then parts.getD 3 "" else ""
    let language := if parts.getD 4 "" ≠ "\\N" then parts.getD 4 "" else ""
    let is_original := parts.getD 7 "" = "1"
    { lang := updateFamily "en" st.lang tconst language is_original,
      ctry := updateFamily "US" st.ctry tconst region is_original }
  else st

/-- The end-of-pass merge of the source: each tentative original value is
copied into the main dict only for titles the main dict does not yet hold. -/
def mergeOrig (fs : FamState) : List (String × String) :=
  fs.orig.foldl
    (fun m p => if !dictContains m p.1 then dictInsert m p.1 p.2 else m)
    fs.main

/-- `load_languages_and_countries`: the final `(languages, countries)` pair. -/
def load_languages_and_countries (lines : List String) :
    List (String × String) × List (String × String) :=
  let st := lines.foldl localeStep ⟨⟨[], []⟩, ⟨[], []⟩⟩
  (mergeOrig st.lang, mergeOrig st.ctry)

/-- The director-name (and, identically, writer-name) resolution block of
`process_basics`: first 3 ids of the comma-separated list, ids without a
name entry omitted; the empty id string yields no names. -/
def directorNamesOf (ids : String) (names : List (String × String)) : List String :=
  if ids ≠ "" then ((splitOnChar ',' ids).take 3).filterMap (fun nid => dictGet names nid)
  else []

/-- One line of `process_basics` up to the 14 output fields (in source
order: tconst, primaryTitle, original, startYear, rating, votes, runtime
with `" mins."`, genres with `,` replaced by `|`, directors, writers, cast,
language, country, isAdult); `none` is a skipped line. -/
def mergedFields (ratings : List (String × PyFloat × Int))
    (crew : List (String × String × String))
    (principals names languages countries : List (String × String))
    (line : String) : Option (List String) :=
  let parts := fieldsOf line
  if parts.length < 9 then none
  else if parts.getD 1 "" ≠ "movie" then none
  else
    match dictGet ratings (parts.getD 0 "") with
    | none => none
    | some rv =>
      if parts.getD 5 "" = "\\N" ∨ parts.getD 7 "" = "\\N" ∨ parts.getD 8 "" = "\\N" then
        none
      else
        let p := (dictGet crew (parts.getD 0 "")).getD ("", "")
        some [parts.getD 0 "", parts.getD 2 "",
          (if parts.getD 3 "" ≠ "\\N" ∧ parts.getD 3 "" ≠ parts.getD 2 "" then parts.getD 3 "" else ""),
          parts.getD 5 "", format1f rv.1, Int.repr rv.2,
          parts.getD 7 "" ++ " mins.", replaceChar ',' '|' (parts.getD 8 ""),
          joinSep ", " (directorNamesOf p.1 names),
          joinSep ", " (directorNamesOf p.2 names),
          (dictGet principals (parts.getD 0 "")).getD "",
          (dictGet languages (parts.getD 0 "")).getD "",
          (dictGet countries (parts.getD 0 "")).getD "",
          parts.getD 4 ""]

/-- The line `process_basics` writes for one input line (`none` = skipped):
the 14 fields tab-joined, plus the trailing newline of the f-string. -/
def process_basics_line (ratings : List (String × PyFloat × Int))
    (crew : List (String × String × String))
    (principals names languages countries : List (String × String))
    (line : String) : Option String :=
  (mergedFields ratings crew principals names languages countries line).map
    (fun fs => joinSep "\t" fs ++ "\n")

/-- `process_basics`: the list of written output lines, one per input line
that passes every filter. -/
def process_basics (lines : List String) (ratings : List (String × PyFloat × Int))
    (crew : List (String × String × String))
    (principals names languages countries : List (String × String)) : List String :=
  lines.filterMap (process_basics_line ratings crew principals names languages countries)

/-- `some` for a non-empty list, `none` for the empty one (the lookup shape
of a dict whose entry for a key exists exactly when something was appended). -/
def optOfList {α : Type} : List α → Option (List α)
  | [] => none
  | x :: xs => some (x :: xs)

/-- The display name a principals line contributes for title `t`: defined
exactly when the line has at least 4 fields, is keyed by `t`, and its
category is `actor` or `actress`; the value is the person id resolved
through `names` with `'Unknown'` on a miss. -/
def qualifyingName (names : List (String × String)) (t : String) (line : String) :
    Option String :=
  let parts := fieldsOf line
  if parts.length ≥ 4 ∧ parts.getD 0 "" = t ∧
      (parts.getD 3 "" = "actor" ∨ parts.getD 3 "" = "actress")
  then some ((dictGet names (parts.getD 2 "")).getD "Unknown")
  else none

/-- All resolved performer names for title `t`, in source order (the
sequence of which `load_principals` keeps the first 3). -/
def resolvedCastRows (lines : List String) (names : List (String × String))
    (t : String) : List String :=
  lines.filterMap (qualifyingName names t)

/-- A ratings line `load_ratings` accepts: at least 3 fields, numeric
rating and vote fields. -/
def validRatingLine (line : String) : Prop :=
  (fieldsOf line).length ≥ 3 ∧ (parseFloat ((fieldsOf line).getD 1 "")).isSome = true ∧
    (parseInt ((fieldsOf line).getD 2 "")).isSome = true

/-- An alternate-titles line carrying the canonical language `en` for
title `t` (at least 8 fields, keyed by `t`, language field `en`; `en` is
untouched by the `\N` normalization). -/
def carriesCanonicalLang (t line : String) : Prop :=
  (fieldsOf line).length ≥ 8 ∧ (fieldsOf line).getD 0 "" = t ∧
    (fieldsOf line).getD 4 "" = "en"

/-- An alternate-titles line carrying the canonical region `US` for `t`. -/
def carriesCanonicalRegion (t line : String) : Prop :=
  (fieldsOf line).length ≥ 8 ∧ (fieldsOf line).getD 0 "" = t ∧
    (fieldsOf line).getD 3 "" = "US"

instance (line : String) : Decidable (validRatingLine line) := by
  unfold validRatingLine; infer_instance

instance (t line : String) : Decidable (carriesCanonicalLang t line) := by
  unfold carriesCanonicalLang; infer_instance

instance (t line : String) : Decidable (carriesCanonicalRegion t line) := by
  unfold carriesCanonicalRegion; infer_instance

theorem dictGet_insert_self {α : Type} (d : List (String × α)) (k : String) (v : α) :
    dictGet (dictInsert d k v) k = some v := by
  induction d with
  | nil => simp [dictInsert, dictGet]
  | cons p rest ih =>
    obtain ⟨k1, v1⟩ := p
    by_cases h : k1 = k
    · simp [dictInsert, h, dictGet]
    · simp [dictInsert, h, dictGet, ih]

theorem dictGet_insert_ne {α : Type} (d : List (String × α)) (k k2 : String) (v : α)
    (h : k ≠ k2) : dictGet (dictInsert d k v) k2 = dictGet d k2 := by
  induction d with
  | nil => simp [dictInsert, dictGet, h]
  | cons p rest ih =>
    obtain ⟨k1, v1⟩ := p
    by_cases h1 : k1 = k
    · simp [dictInsert, h1, dictGet, h]
    · simp [dictInsert, h1, dictGet, ih]

theorem dictGet_insert_cases {α : Type} (d : List (String × α)) (k t : String) (v p : α)
    (h : dictGet (dictInsert d k v) t = some p) : p = v ∨ dictGet d t = some p := by
  by_cases hkt : k = t
  · subst hkt
    rw [dictGet_insert_self] at h
    exact Or.inl (Option.some.inj h).symm
  · rw [dictGet_insert_ne d k t v hkt] at h
    exact Or.inr h

theorem normSentinel_ne (x : String) : (if x ≠ "\\N" then x else "") ≠ "\\N" := by
  by_cases h : x = "\\N"
  · simp [h]
  · simp [h]

/-- C1: the spec says an original-flagged tentative value overwrites an
earlier fallback-tentative value regardless of arrival order, and so does
the code comment's priority list (`English > original > first found`), but
the code stores the fallback directly in the final dict, whose occupancy
then blocks both the original-flagged branch and the end-of-pass merge:
for rows `(fr, original=false)` then `(de, original=true)` with no `en`
row, the final language stays `fr`, not `de`. -/
theorem C1_fallback_blocks_original :
    dictGet (load_languages_and_countries
        ["tt1\t1\tT\t\tfr\t\t\t0", "tt1\t2\tT\t\tde\t\t\t1"]).1 "tt1" = some "fr"
      ∧ dictGet (load_languages_and_countries
        ["tt1\t1\tT\tFR\t\t\t\t0", "tt1\t2\tT\tDE\t\t\t\t1"]).2 "tt1" = some "FR" := by
  decide

/-- C2 counterexample: `load_names` stores the `primaryName` field verbatim,
so a names row whose `primaryName` is the sentinel `\N` puts the literal
two-character string into `NameIndex`, and director resolution then copies
it into the directors output field. -/
theorem C2_sentinel_stored_in_names :
    dictGet (load_names ["nm1\t\\N"]) "nm1" = some "\\N"
      ∧ (mergedFields (load_ratings ["tt1\t8.0\t10"]) (load_crew ["tt1\tnm1\t\\N"]) []
          (load_names ["nm1\t\\N"]) [] [] "tt1\tmovie\tT\t\\N\t0\t1999\t\\N\t90\tDrama").map
          (fun fs => fs.getD 8 "") = some "\\N" := by
  decide

theorem crewStep_no_sentinel (d : List (String × String × String)) (line : String)
    (h : ∀ t p, dictGet d t = some p → p.1 ≠ "\\N" ∧ p.2 ≠ "\\N") :
    ∀ t p, dictGet (crewStep d line) t = some p → p.1 ≠ "\\N" ∧ p.2 ≠ "\\N" := by
  intro t p hp
  by_cases hl : (fieldsOf line).length ≥ 3
  · simp only [crewStep, if_pos hl] at hp
    rcases dictGet_insert_cases _ _ _ _ _ hp with hv | hv
    · rw [hv]
      exact ⟨normSentinel_ne _, normSentinel_ne _⟩
    · exact h t p hv
  · simp only [crewStep, if_neg hl] at hp
    exact h t p hp

/-- C2 amended: the sentinel normalization holds in `CrewIndex` (a stored
director or writer id string is never the literal `\N`), but not in
`NameIndex`, which stores the `primaryName` field verbatim. -/
theorem C2_crew_normalized (lines : List String) (t : String) (p : String × String)
    (h : dictGet (load_crew lines) t = some p) : p.1 ≠ "\\N" ∧ p.2 ≠ "\\N" := by
  suffices hgen : ∀ (ls : List String) (d : List (String × String × String)),
      (∀ t2 q, dictGet d t2 = some q → q.1 ≠ "\\N" ∧ q.2 ≠ "\\N") →
      ∀ t2 q, dictGet (ls.foldl crewStep d) t2 = some q → q.1 ≠ "\\N" ∧ q.2 ≠ "\\N" by
    exact hgen lines [] (by intro t2 q hq; simp [dictGet] at hq) t p h
  intro ls
  induction ls with
  | nil => intro d hd; exact hd
  | cons l rest ih =>
    intro d hd
    exact ih (crewStep d l) (crewStep_no_sentinel d l hd)

theorem C2_crew_normalized_witness :
    ("nm1" ≠ "\\N" ∧ "" ≠ "\\N") :=
  C2_crew_normalized ["tt1\tnm1\t\\N"] "tt1" ("nm1", "") (by decide)

/-- C5: the end-to-end scenario of the spec: one rating row, one crew row
with writers `\N`, names for the two directors, empty principals and locale
inputs, one qualifying basics row; exactly one output line is produced,
byte-for-byte as specified (plus the f-string's trailing newline). -/
theorem C5_end_to_end :
    process_basics ["tt0000001\tmovie\tFoo\t\\N\t0\t1999\t\\N\t90\tDrama,Comedy"]
      (load_ratings ["tt0000001\t8.5\t1000"])
      (load_crew ["tt0000001\tnm01,nm02\t\\N"])
      (load_principals [] (load_names ["nm01\tAda", "nm02\tBob"]))
      (load_names ["nm01\tAda", "nm02\tBob"])
      (load_languages_and_countries []).1
      (load_languages_and_countries []).2
      = ["tt0000001\tFoo\t\t1999\t8.5\t1000\t90 mins.\tDrama|Comedy\tAda, Bob\t\t\t\t\t0\n"] := by
  decide

theorem principalsStep_get_none (names : List (String × String))
    (st : List (String × List String)) (line t : String)
    (hq : qualifyingName names t line = none) :
    dictGet (principalsStep names st line) t = dictGet st t := by
  by_cases h4 : (fieldsOf line).length ≥ 4
  · by_cases hcat : (fieldsOf line).getD 3 "" = "actor" ∨ (fieldsOf line).getD 3 "" = "actress"
    · by_cases ht : (fieldsOf line).getD 0 "" = t
      · exfalso
        simp only [qualifyingName] at hq
        rw [if_pos (And.intro h4 (And.intro ht hcat))] at hq
        exact Option.noConfusion hq
      · simp only [principalsStep]
        rw [if_pos h4, if_pos hcat]
        split
        · exact dictGet_insert_ne st _ t _ ht
        · rfl
    · simp only [principalsStep]
      rw [if_pos h4, if_neg hcat]
  · simp only [principalsStep]
    rw [if_neg h4]

theorem qualifyingName_some_parts (names : List (String × String)) (line t nm : String)
    (hq : qualifyingName names t line = some nm) :
    (fieldsOf line).length ≥ 4 ∧ (fieldsOf line).getD 0 "" = t ∧
      ((fieldsOf line).getD 3 "" = "actor" ∨ (fieldsOf line).getD 3 "" = "actress") ∧
      nm = (dictGet names ((fieldsOf line).getD 2 "")).getD "Unknown" := by
  simp only [qualifyingName] at hq
  by_cases hc : (fieldsOf line).length ≥ 4 ∧ (fieldsOf line).getD 0 "" = t ∧
      ((fieldsOf line).getD 3 "" = "actor" ∨ (fieldsOf line).getD 3 "" = "actress")
  · rw [if_pos hc] at hq
    exact ⟨hc.1, hc.2.1, hc.2.2, (Option.some.inj hq).symm⟩
  · rw [if_neg hc] at hq
    exact Option.noConfusion hq

theorem principalsStep_get_new (names : List (String × String))
    (st : List (String × List String)) (line t nm : String)
    (hq : qualifyingName names t line = some nm)
    (hst : dictGet st t = none) :
    dictGet (principalsStep names st line) t = some [nm] := by
  obtain ⟨h4, ht, hcat, hnm⟩ := qualifyingName_some_parts names line t nm hq
  simp only [principalsStep]
  rw [if_pos h4, if_pos hcat, ht, hst]
  rw [if_pos (by simp : ((none : Option (List String)).getD []).length < 3),
    dictGet_insert_self, hnm]
  rfl

theorem principalsStep_get_append (names : List (String × String))
    (st : List (String × List String)) (line t nm : String) (l : List String)
    (hq : qualifyingName names t line = some nm)
    (hst : dictGet st t = some l) (hl : l.length < 3) :
    dictGet (principalsStep names st line) t = some (l ++ [nm]) := by
  obtain ⟨h4, ht, hcat, hnm⟩ := qualifyingName_some_parts names line t nm hq
  simp only [principalsStep]
  rw [if_pos h4, if_pos hcat, ht, hst]
  rw [if_pos (by simpa using hl : ((some l).getD []).length < 3),
    dictGet_insert_self, hnm]
  rfl

theorem principalsStep_get_full (names : List (String × String))
    (st : List (String × List String)) (line t nm : String) (l : List String)
    (hq : qualifyingName names t line = some nm)
    (hst : dictGet st t = some l) (hl : ¬l.length < 3) :
    dictGet (principalsStep names st line) t = some l := by
  obtain ⟨h4, ht, hcat, hnm⟩ := qualifyingName_some_parts names line t nm hq
  simp only [principalsStep]
  rw [if_pos h4, if_pos hcat, ht, hst]
  rw [if_neg (by simpa using hl : ¬((some l).getD []).length < 3), hst]

theorem resolvedCastRows_cons_none (line : String) (rest : List String)
    (names : List (String × String)) (t : String)
    (hq : qualifyingName names t line = none) :
    resolvedCastRows (line :: rest) names t = resolvedCastRows rest names t := by
  simp [resolvedCastRows, List.filterMap_cons, hq]

theorem resolvedCastRows_cons_some (line : String) (rest : List String)
    (names : List (String × String)) (t nm : String)
    (hq : qualifyingName names t line = some nm) :
    resolvedCastRows (line :: rest) names t = nm :: resolvedCastRows rest names t := by
  simp [resolvedCastRows, List.filterMap_cons, hq]

theorem principals_foldl_some (names : List (String × String)) (t : String) :
    ∀ (lines : List String) (st : List (String × List String)) (l : List String),
      dictGet st t = some l →
      dictGet (lines.foldl (principalsStep names) st) t
        = some (l ++ (resolvedCastRows lines names t).take (3 - l.length)) := by
  intro lines
  induction lines with
  | nil =>
    intro st l hst
    simp [resolvedCastRows, hst]
  | cons line rest ih =>
    intro st l hst
    rw [List.foldl_cons]
    cases hq : qualifyingName names t line with
    | none =>
      rw [resolvedCastRows_cons_none line rest names t hq]
      exact ih (principalsStep names st line) l
        ((principalsStep_get_none names st line t hq).trans hst)
    | some nm =>
      rw [resolvedCastRows_cons_some line rest names t nm hq]
      by_cases hl : l.length < 3
      · have hstep := principalsStep_get_append names st line t nm l hq hst hl
        rw [ih (principalsStep names st line) (l ++ [nm]) hstep]
        obtain ⟨k, hk⟩ : ∃ k, 3 - l.length = k + 1 := ⟨3 - l.length - 1, by omega⟩
        rw [hk, List.take_succ_cons, List.length_append, List.length_cons,
          List.length_nil, show 3 - (l.length + (0 + 1)) = k from by omega,
          List.append_assoc]
        rfl
      · have hstep := principalsStep_get_full names st line t nm l hq hst hl
        rw [ih (principalsStep names st line) l hstep]
        rw [show (3 : Nat) - l.length = 0 from by omega]
        rfl

theorem principals_foldl_none (names : List (String × String)) (t : String) :
    ∀ (lines : List String) (st : List (String × List String)),
      dictGet st t = none →
      dictGet (lines.foldl (principalsStep names) st) t
        = optOfList ((resolvedCastRows lines names t).take 3) := by
  intro lines
  induction lines with
  | nil =>
    intro st hst
    simp [resolvedCastRows, optOfList, hst]
  | cons line rest ih =>
    intro st hst
    rw [List.foldl_cons]
    cases hq : qualifyingName names t line with
    | none =>
      rw [resolvedCastRows_cons_none line rest names t hq]
      exact ih (principalsStep names st line)
        ((principalsStep_get_none names st line t hq).trans hst)
    | some nm =>
      rw [resolvedCastRows_cons_some line rest names t nm hq]
      have hstep := principalsStep_get_new names st line t nm hq hst
      rw [principals_foldl_some names t rest (principalsStep names st line) [nm] hstep]
      rfl

theorem dictGet_map_join (d : List (String × List String)) (k : String) :
    dictGet (d.map (fun p => (p.1, joinSep ", " p.2))) k
      = (dictGet d k).map (joinSep ", ") := by
  induction d with
  | nil => simp [dictGet]
  | cons p rest ih =>
    obtain ⟨k1, v1⟩ := p
    by_cases h : k1 = k
    · simp [dictGet, h]
    · simp [dictGet, h, ih]

/-- C7: for every title, `load_principals` resolves exactly the first (at
most 3) actor/actress rows in source order, each person id looked up in
`NameIndex` with `'Unknown'` on a miss, other categories ignored; a title
maps to a value exactly when it has at least one qualifying row. The
concrete order-stability example [A(actor), B(director), C(actress),
D(actor), E(actress)] resolves to exactly `A, C, D`. -/
theorem C7_principals_first_three (lines : List String)
    (names : List (String × String)) (t : String) :
    (dictGet (load_principals lines names) t
        = (optOfList ((resolvedCastRows lines names t).take 3)).map (joinSep ", "))
      ∧ dictGet (load_principals
          ["tt1\t1\tn1\tactor", "tt1\t2\tn2\tdirector", "tt1\t3\tn3\tactress",
            "tt1\t4\tn4\tactor", "tt1\t5\tn5\tactress"]
          [("n1", "A"), ("n2", "B"), ("n3", "C"), ("n4", "D"), ("n5", "E")]) "tt1"
        = some "A, C, D" := by
  constructor
  · rw [load_principals, dictGet_map_join, principalsLists,
      principals_foldl_none names t lines [] rfl]
  · decide

/-- C8: director and writer name lists are built from the first 3 ids only
(so have length at most 3), and every cast list held by the principals pass
has length at most 3. -/
theorem C8_lists_at_most_three (ids : String) (names : List (String × String))
    (lines : List String) (t : String) (l : List String)
    (h : dictGet (principalsLists lines names) t = some l) :
    (directorNamesOf ids names).length ≤ 3 ∧ l.length ≤ 3 := by
  constructor
  · by_cases hi : ids = ""
    · simp [directorNamesOf, hi]
    · rw [directorNamesOf, if_pos hi]
      exact le_trans (List.length_filterMap_le _ _) (List.length_take_le _ _)
  · rw [principalsLists, principals_foldl_none names t lines [] rfl] at h
    rcases hr : List.take 3 (resolvedCastRows lines names t) with _ | ⟨a, as⟩
    · rw [hr] at h
      exact absurd h (by simp [optOfList])
    · rw [hr] at h
      have hl : a :: as = l := by
        rw [show optOfList (a :: as) = some (a :: as) from rfl] at h
        exact Option.some.inj h
      rw [← hl, ← hr]
      exact List.length_take_le _ _

theorem C8_lists_at_most_three_witness :
    (directorNamesOf "a,b,c,d" []).length ≤ 3 ∧ (["Unknown"] : List String).length ≤ 3 :=
  C8_lists_at_most_three "a,b,c,d" [] ["tt1\t1\tnm1\tactor"] "tt1" ["Unknown"] (by decide)

theorem updateFamily_canonical_self (c : String) (st : FamState) (tc : String)
    (o : Bool) (hc : c ≠ "") :
    dictGet (updateFamily c st tc c o).main tc = some c := by
  simp only [updateFamily]
  rw [if_pos hc]
  split
  · exact dictGet_insert_self st.main tc c
  · simp_all

theorem updateFamily_canonical_preserve (c : String) (st : FamState) (tc v : String)
    (o : Bool) (t : String) (h : dictGet st.main t = some c) :
    dictGet (updateFamily c st tc v o).main t = some c := by
  simp only [updateFamily]
  by_cases hv : v ≠ ""
  · rw [if_pos hv]
    by_cases hvc : v = c
    · rw [if_pos hvc]
      by_cases htc : tc = t
      · subst htc
        exact dictGet_insert_self st.main tc c
      · show dictGet (dictInsert st.main tc c) t = some c
        rw [dictGet_insert_ne st.main tc t c htc]
        exact h
    · rw [if_neg hvc]
      by_cases ho : (o && !dictContains st.main tc) = true
      · rw [if_pos ho]
        exact h
      · rw [if_neg ho]
        by_cases hf : (!dictContains st.main tc && !dictContains st.orig tc) = true
        · rw [if_pos hf]
          have htc : tc ≠ t := by
            intro hEq
            rw [hEq] at hf
            have hct : dictContains st.main t = true := by
              simp [dictContains, h]
            simp [hct] at hf
          show dictGet (dictInsert st.main tc v) t = some c
          rw [dictGet_insert_ne st.main tc t v htc]
          exact h
        · rw [if_neg hf]
          exact h
  · rw [if_neg hv]
    exact h

theorem localeStep_lang_canonical (st : LocaleState) (line t : String)
    (h : carriesCanonicalLang t line) :
    dictGet (localeStep st line).lang.main t = some "en" := by
  obtain ⟨h8, ht, hl⟩ := h
  simp only [localeStep]
  rw [if_pos h8, ht, hl]
  apply updateFamily_canonical_self
  decide

theorem localeStep_lang_preserve (st : LocaleState) (line t : String)
    (h : dictGet st.lang.main t = some "en") :
    dictGet (localeStep st line).lang.main t = some "en" := by
  simp only [localeStep]
  by_cases h8 : (fieldsOf line).length ≥ 8
  · rw [if_pos h8]
    exact updateFamily_canonical_preserve "en" st.lang _ _ _ t h
  · rw [if_neg h8]
    exact h

theorem localeStep_ctry_canonical (st : LocaleState) (line t : String)
    (h : carriesCanonicalRegion t line) :
    dictGet (localeStep st line).ctry.main t = some "US" := by
  obtain ⟨h8, ht, hr⟩ := h
  simp only [localeStep]
  rw [if_pos h8, ht, hr]
  apply updateFamily_canonical_self
  decide

theorem localeStep_ctry_preserve (st : LocaleState) (line t : String)
    (h : dictGet st.ctry.main t = some "US") :
    dictGet (localeStep st line).ctry.main t = some "US" := by
  simp only [localeStep]
  by_cases h8 : (fieldsOf line).length ≥ 8
  · rw [if_pos h8]
    exact updateFamily_canonical_preserve "US" st.ctry _ _ _ t h
  · rw [if_neg h8]
    exact h

theorem locale_foldl_lang_canonical (t : String) :
    ∀ (lines : List String) (st : LocaleState),
      (∃ l ∈ lines, carriesCanonicalLang t l) →
      dictGet (lines.foldl localeStep st).lang.main t = some "en" := by
  have hpre : ∀ (lines : List String) (st : LocaleState),
      dictGet st.lang.main t = some "en" →
      dictGet (lines.foldl localeStep st).lang.main t = some "en" := by
    intro lines
    induction lines with
    | nil => intro st h; exact h
    | cons line rest ih =>
      intro st h
      exact ih (localeStep st line) (localeStep_lang_preserve st line t h)
  intro lines
  induction lines with
  | nil =>
    intro st h
    exact absurd h (by simp)
  | cons line rest ih =>
    intro st h
    rcases h with ⟨l, hmem, hc⟩
    rcases List.mem_cons.mp hmem with heq | hmem2
    · subst heq
      exact hpre rest (localeStep st l) (localeStep_lang_canonical st l t hc)
    · exact ih (localeStep st line) ⟨l, hmem2, hc⟩

theorem locale_foldl_ctry_canonical (t : String) :
    ∀ (lines : List String) (st : LocaleState),
      (∃ l ∈ lines, carriesCanonicalRegion t l) →
      dictGet (lines.foldl localeStep st).ctry.main t = some "US" := by
  have hpre : ∀ (lines : List String) (st : LocaleState),
      dictGet st.ctry.main t = some "US" →
      dictGet (lines.foldl localeStep st).ctry.main t = some "US" := by
    intro lines
    induction lines with
    | nil => intro st h; exact h
    | cons line rest ih =>
      intro st h
      exact ih (localeStep st line) (localeStep_ctry_preserve st line t h)
  intro lines
  induction lines with
  | nil =>
    intro st h
    exact absurd h (by simp)
  | cons line rest ih =>
    intro st h
    rcases h with ⟨l, hmem, hc⟩
    rcases List.mem_cons.mp hmem with heq | hmem2
    · subst heq
      exact hpre rest (localeStep st l) (localeStep_ctry_canonical st l t hc)
    · exact ih (localeStep st line) ⟨l, hmem2, hc⟩

theorem mergeOrig_preserve_aux (t v : String) :
    ∀ (ol : List (String × String)) (m : List (String × String)),
      dictGet m t = some v →
      dictGet (ol.foldl
        (fun m2 p => if !dictContains m2 p.1 then dictInsert m2 p.1 p.2 else m2) m) t
        = some v := by
  intro ol
  induction ol with
  | nil => intro m h; exact h
  | cons p rest ih =>
    intro m h
    rw [List.foldl_cons]
    apply ih
    by_cases hc : dictContains m p.1 = true
    · rw [if_neg (by simp [hc])]
      exact h
    · have hcf : dictContains m p.1 = false := by
        simpa using hc
      rw [if_pos (by rw [hcf]; rfl)]
      have hne : p.1 ≠ t := by
        intro hEq
        rw [hEq] at hcf
        simp [dictContains, h] at hcf
      rw [dictGet_insert_ne m p.1 t p.2 hne]
      exact h

theorem mergeOrig_preserve (fs : FamState) (t v : String)
    (h : dictGet fs.main t = some v) : dictGet (mergeOrig fs) t = some v :=
  mergeOrig_preserve_aux t v fs.orig fs.main h

/-- C3: once any row carrying the canonical value (`en` / `US`) for a title
has been seen, the final mapping for that title is the canonical value, no
matter what the other rows are or in what order they arrive; the three
concrete orderings of the spec behave as stated ([fr, en] gives en, en is
never overridden by a later original, and an original-tentative beats a
later plain fallback). -/
theorem C3_canonical_dominates (lines : List String) (t : String) :
    ((∃ l ∈ lines, carriesCanonicalLang t l) →
        dictGet (load_languages_and_countries lines).1 t = some "en")
  ∧ ((∃ l ∈ lines, carriesCanonicalRegion t l) →
        dictGet (load_languages_and_countries lines).2 t = some "US")
  ∧ dictGet (load_languages_and_countries
      ["tt1\t1\tT\t\tfr\t\t\t0", "tt1\t2\tT\t\ten\t\t\t0"]).1 "tt1" = some "en"
  ∧ dictGet (load_languages_and_countries
      ["tt1\t1\tT\t\ten\t\t\t0", "tt1\t2\tT\t\tfr\t\t\t1"]).1 "tt1" = some "en"
  ∧ dictGet (load_languages_and_countries
      ["tt1\t1\tT\t\tfr\t\t\t1", "tt1\t2\tT\t\tde\t\t\t0"]).1 "tt1" = some "fr" := by
  refine ⟨?_, ?_, by decide, by decide, by decide⟩
  · intro h
    exact mergeOrig_preserve _ t "en" (locale_foldl_lang_canonical t lines _ h)
  · intro h
    exact mergeOrig_preserve _ t "US" (locale_foldl_ctry_canonical t lines _ h)

theorem C3_canonical_dominates_witness :
    dictGet (load_languages_and_countries ["tt1\t0\tT\tUS\ten\t\t\t0"]).1 "tt1" = some "en"
      ∧ dictGet (load_languages_and_countries ["tt1\t0\tT\tUS\ten\t\t\t0"]).2 "tt1"
        = some "US" :=
  ⟨(C3_canonical_dominates ["tt1\t0\tT\tUS\ten\t\t\t0"] "tt1").1 (by decide),
    (C3_canonical_dominates ["tt1\t0\tT\tUS\ten\t\t\t0"] "tt1").2.1 (by decide)⟩

/-- C4 counterexample: a basics row whose isAdult column is the sentinel
`\N` passes every filter (the filters only test startYear, runtime, genres)
and is emitted with the literal `\N` as its adult-flag field, which is
neither `0` nor `1`. -/
theorem C4_adult_flag_counterexample :
    (mergedFields (load_ratings ["tt1\t8.0\t10"]) [] [] [] [] []
        "tt1\tmovie\tT\t\\N\t\\N\t1999\t\\N\t90\tDrama").map (fun fs => fs.getD 13 "")
      = some "\\N"
    ∧ ¬("\\N" = "0" ∨ "\\N" = "1") := by
  decide

/-- C4 amended: the adult-flag output field is copied verbatim from the
source row's isAdult column (field index 4), with no validation: it is `0`
or `1` exactly when the source column is, and any other token there (such
as the sentinel `\N`) is emitted as-is. -/
theorem C4_adult_flag_verbatim (ratings : List (String × PyFloat × Int))
    (crew : List (String × String × String))
    (principals names languages countries : List (String × String))
    (line : String) (fs : List String)
    (h : mergedFields ratings crew principals names languages countries line = some fs) :
    fs.getD 13 "" = (fieldsOf line).getD 4 "" := by
  simp only [mergedFields] at h
  split at h
  · exact absurd h (by simp)
  · split at h
    · exact absurd h (by simp)
    · split at h
      · exact absurd h (by simp)
      · split at h
        · exact absurd h (by simp)
        · rw [← Option.some.inj h]
          rfl

theorem C4_adult_flag_verbatim_witness :
    (["tt1", "T", "", "1999", "8.0", "10", "90 mins.", "Drama", "", "", "", "", "",
        "0"] : List String).getD 13 ""
      = (fieldsOf "tt1\tmovie\tT\t\\N\t0\t1999\t\\N\t90\tDrama").getD 4 "" :=
  C4_adult_flag_verbatim (load_ratings ["tt1\t8.0\t10"]) [] [] [] [] []
    "tt1\tmovie\tT\t\\N\t0\t1999\t\\N\t90\tDrama"
    ["tt1", "T", "", "1999", "8.0", "10", "90 mins.", "Drama", "", "", "", "", "", "0"]
    (by decide)

/-- C6: an output record is emitted for a title-attributes line only if its
title-type field is `movie`, a ratings entry exists for its TitleId, and
none of release-year, runtime, genres is the sentinel `\N`; a line whose
title type is not `movie` never emits; and a line that emits nothing is
skipped, leaving the rest of the pass untouched. -/
theorem C6_merge_filters (ratings : List (String × PyFloat × Int))
    (crew : List (String × String × String))
    (principals names languages countries : List (String × String))
    (line : String) (rest : List String) :
    (∀ fs, mergedFields ratings crew principals names languages countries line = some fs →
        (fieldsOf line).getD 1 "" = "movie"
          ∧ (dictGet ratings ((fieldsOf line).getD 0 "")).isSome = true
          ∧ (fieldsOf line).getD 5 "" ≠ "\\N"
          ∧ (fieldsOf line).getD 7 "" ≠ "\\N"
          ∧ (fieldsOf line).getD 8 "" ≠ "\\N")
      ∧ ((fieldsOf line).getD 1 "" ≠ "movie" →
          process_basics_line ratings crew principals names languages countries line = none)
      ∧ (process_basics_line ratings crew principals names languages countries line = none →
          process_basics (line :: rest) ratings crew principals names languages countries
            = process_basics rest ratings crew principals names languages countries) := by
  refine ⟨?_, ?_, ?_⟩
  · intro fs h
    simp only [mergedFields] at h
    split at h
    · exact absurd h (by simp)
    next h9 =>
      split at h
      · exact absurd h (by simp)
      next hmv =>
        split at h
        next hrat0 => exact absurd h (by simp)
        next rv hrat =>
          split at h
          next hnn => exact absurd h (by simp)
          next hnn =>
            push_neg at hnn
            exact ⟨not_not.mp hmv, by rw [hrat]; rfl, hnn.1, hnn.2.1, hnn.2.2⟩
  · intro hm
    have hmf : mergedFields ratings crew principals names languages countries line
        = none := by
      by_cases h9 : (fieldsOf line).length < 9
      · simp only [mergedFields]
        rw [if_pos h9]
      · simp only [mergedFields]
        rw [if_neg h9, if_pos hm]
    simp [process_basics_line, hmf]
  · intro hnone
    simp [process_basics, List.filterMap_cons, hnone]

theorem C6_merge_filters_witness :
    ((fieldsOf "tt1\tmovie\tT\t\\N\t0\t1999\t\\N\t90\tDrama").getD 1 "" = "movie"
        ∧ (dictGet (load_ratings ["tt1\t8.0\t10"])
            ((fieldsOf "tt1\tmovie\tT\t\\N\t0\t1999\t\\N\t90\tDrama").getD 0 "")).isSome
            = true
        ∧ (fieldsOf "tt1\tmovie\tT\t\\N\t0\t1999\t\\N\t90\tDrama").getD 5 "" ≠ "\\N"
        ∧ (fieldsOf "tt1\tmovie\tT\t\\N\t0\t1999\t\\N\t90\tDrama").getD 7 "" ≠ "\\N"
        ∧ (fieldsOf "tt1\tmovie\tT\t\\N\t0\t1999\t\\N\t90\tDrama").getD 8 "" ≠ "\\N")
      ∧ process_basics_line (load_ratings ["tt1\t8.0\t10"]) [] [] [] [] []
          "tt2\tshort\tS\t\\N\t0\t1999\t\\N\t5\tDrama" = none
      ∧ process_basics ["tt2\tshort\tS\t\\N\t0\t1999\t\\N\t5\tDrama"]
          (load_ratings ["tt1\t8.0\t10"]) [] [] [] [] []
        = process_basics [] (load_ratings ["tt1\t8.0\t10"]) [] [] [] [] [] :=
  ⟨(C6_merge_filters (load_ratings ["tt1\t8.0\t10"]) [] [] [] [] []
      "tt1\tmovie\tT\t\\N\t0\t1999\t\\N\t90\tDrama" []).1
      ["tt1", "T", "", "1999", "8.0", "10", "90 mins.", "Drama", "", "", "", "", "", "0"]
      (by decide),
    (C6_merge_filters (load_ratings ["tt1\t8.0\t10"]) [] [] [] [] []
      "tt2\tshort\tS\t\\N\t0\t1999\t\\N\t5\tDrama" []).2.1 (by decide),
    (C6_merge_filters (load_ratings ["tt1\t8.0\t10"]) [] [] [] [] []
      "tt2\tshort\tS\t\\N\t0\t1999\t\\N\t5\tDrama" []).2.2 (by decide)⟩

theorem ratingsStep_invalid (d : List (String × PyFloat × Int)) (line : String)
    (h : ¬validRatingLine line) : ratingsStep d line = d := by
  simp only [ratingsStep]
  by_cases h3 : (fieldsOf line).length ≥ 3
  · rw [if_pos h3]
    cases hf : parseFloat ((fieldsOf line).getD 1 "") with
    | none =>
      cases hi : parseInt ((fieldsOf line).getD 2 "") <;> rfl
    | some a =>
      cases hi : parseInt ((fieldsOf line).getD 2 "") with
      | none => rfl
      | some b =>
        exact absurd (show validRatingLine line from
          ⟨h3, by rw [hf]; rfl, by rw [hi]; rfl⟩) h
  · rw [if_neg h3]

theorem ratingsStep_valid (d : List (String × PyFloat × Int)) (line : String)
    (h : validRatingLine line) :
    ∃ v, ratingsStep d line = dictInsert d ((fieldsOf line).getD 0 "") v := by
  obtain ⟨h3, hf, hi⟩ := h
  obtain ⟨a, ha⟩ := Option.isSome_iff_exists.mp hf
  obtain ⟨b, hb⟩ := Option.isSome_iff_exists.mp hi
  refine ⟨(a, b), ?_⟩
  simp only [ratingsStep]
  rw [if_pos h3, ha, hb]

theorem load_ratings_absent (t : String) :
    ∀ (ls : List String) (d : List (String × PyFloat × Int)),
      dictGet d t = none →
      (∀ l ∈ ls, ¬(validRatingLine l ∧ (fieldsOf l).getD 0 "" = t)) →
      dictGet (ls.foldl ratingsStep d) t = none := by
  intro ls
  induction ls with
  | nil => intro d hd _; exact hd
  | cons l rest ih =>
    intro d hd hall
    rw [List.foldl_cons]
    apply ih
    · by_cases hv : validRatingLine l
      · have hne : (fieldsOf l).getD 0 "" ≠ t := fun hEq => hall l (by simp) ⟨hv, hEq⟩
        obtain ⟨v, hstep⟩ := ratingsStep_valid d l hv
        rw [hstep, dictGet_insert_ne d _ t _ hne]
        exact hd
      · rw [ratingsStep_invalid d l hv]
        exact hd
    · intro l2 hl2
      exact hall l2 (by simp [hl2])

/-- C9: a malformed ratings line (too few fields or a non-numeric rating or
vote field) leaves RatingsIndex exactly as it was; a valid line only
touches the entry of its own first field; if the stream is cut, a title
with no valid delivered line is absent from the index; and an absent title
makes MergeJoin skip every basics row keyed by it. -/
theorem C9_ratings_skip_truncation (d : List (String × PyFloat × Int)) (line : String)
    (l1 : List String) (t : String) (crew : List (String × String × String))
    (principals names languages countries : List (String × String)) (bline : String) :
    (¬validRatingLine line → ratingsStep d line = d)
      ∧ (validRatingLine line →
          ∃ v, ratingsStep d line = dictInsert d ((fieldsOf line).getD 0 "") v)
      ∧ ((∀ l ∈ l1, ¬(validRatingLine l ∧ (fieldsOf l).getD 0 "" = t)) →
          dictGet (load_ratings l1) t = none)
      ∧ (dictGet (load_ratings l1) t = none → (fieldsOf bline).getD 0 "" = t →
          process_basics_line (load_ratings l1) crew principals names languages countries
            bline = none) := by
  refine ⟨ratingsStep_invalid d line, ratingsStep_valid d line, ?_, ?_⟩
  · intro hall
    exact load_ratings_absent t l1 [] rfl hall
  · intro habs hkey
    have hmf : mergedFields (load_ratings l1) crew principals names languages countries
        bline = none := by
      simp only [mergedFields]
      split
      · rfl
      · split
        · rfl
        · rw [hkey, habs]
    simp [process_basics_line, hmf]

theorem C9_ratings_skip_truncation_witness :
    ratingsStep [] "tt1\tbad\t10" = []
      ∧ (∃ v, ratingsStep [] "tt1\t8.0\t10" = dictInsert []
          ((fieldsOf "tt1\t8.0\t10").getD 0 "") v)
      ∧ dictGet (load_ratings ["tt1\t8.0\t10"]) "tt2" = none
      ∧ process_basics_line (load_ratings ["tt1\t8.0\t10"]) [] [] [] [] []
          "tt2\tmovie\tT\t\\N\t0\t1999\t\\N\t90\tDrama" = none :=
  ⟨(C9_ratings_skip_truncation [] "tt1\tbad\t10" [] "x" [] [] [] [] [] "").1
      (by decide),
    (C9_ratings_skip_truncation [] "tt1\t8.0\t10" [] "x" [] [] [] [] [] "").2.1
      (by decide),
    (C9_ratings_skip_truncation [] "x" ["tt1\t8.0\t10"] "tt2" [] [] [] [] [] "").2.2.1
      (by decide),
    (C9_ratings_skip_truncation [] "x" ["tt1\t8.0\t10"] "tt2" [] [] [] []
      [] "tt2\tmovie\tT\t\\N\t0\t1999\t\\N\t90\tDrama").2.2.2 (by decide) (by decide)⟩

/-- C10: MergeJoin deduplicates nothing: whenever two consecutive
title-attribute lines each pass the filters, one output line is written for
each, with no constraint relating their TitleIds, so the same TitleId can
appear on several output lines. -/
theorem C10_no_dedup (ratings : List (String × PyFloat × Int))
    (crew : List (String × String × String))
    (principals names languages countries : List (String × String))
    (l1 l2 : String) (rest : List String) (o1 o2 : String)
    (h1 : process_basics_line ratings crew principals names languages countries l1 = some o1)
    (h2 : process_basics_line ratings crew principals names languages countries l2
      = some o2) :
    process_basics (l1 :: l2 :: rest) ratings crew principals names languages countries
      = o1 :: o2 :: process_basics rest ratings crew principals names languages countries := by
  simp [process_basics, List.filterMap_cons, h1, h2]

theorem C10_no_dedup_witness :
    process_basics
      ["tt1\tmovie\tT\t\\N\t0\t1999\t\\N\t90\tDrama",
        "tt1\tmovie\tT\t\\N\t0\t1999\t\\N\t90\tDrama"]
      (load_ratings ["tt1\t8.0\t10"]) [] [] [] [] []
      = ["tt1\tT\t\t1999\t8.0\t10\t90 mins.\tDrama\t\t\t\t\t\t0\n",
        "tt1\tT\t\t1999\t8.0\t10\t90 mins.\tDrama\t\t\t\t\t\t0\n"] := by
  rw [C10_no_dedup (load_ratings ["tt1\t8.0\t10"]) [] [] [] [] []
      "tt1\tmovie\tT\t\\N\t0\t1999\t\\N\t90\tDrama"
      "tt1\tmovie\tT\t\\N\t0\t1999\t\\N\t90\tDrama" []
      "tt1\tT\t\t1999\t8.0\t10\t90 mins.\tDrama\t\t\t\t\t\t0\n"
      "tt1\tT\t\t1999\t8.0\t10\t90 mins.\tDrama\t\t\t\t\t\t0\n"
      (by decide) (by decide)]
  rfl
